import Mathlib

/-!
Verification of the gitlab-toolbox API client core: a shallow embedding of
`GitLabClient.paginate` (src/gitlab_toolbox/api/client.py), the merge-request
pipeline-status cross-reference filter (src/gitlab_toolbox/api/merge_requests.py),
the group reference resolution (src/gitlab_toolbox/api/groups.py) and the
pipeline-schedule listing strategies (src/gitlab_toolbox/api/pipeline_schedules.py),
together with theorems settling the spec's claims about them.

Conventions of the embedding:
- Python dicts used as query-parameter maps become association lists
  (`Dict`), with `dictSet` reproducing in-place key assignment.
- The upstream REST transport is an oracle `Nat → Resp α`: for each requested
  page number it yields either a JSON list (`Resp.list`) or any non-list JSON
  value (`Resp.other`).
- The `while True` pagination loop is run on explicit fuel; `none` means the
  fuel was exhausted, `some` is the value the Python loop returns.  Besides the
  accumulated items the embedding returns the final params dict (mutated in
  place by the source) and the number of page requests issued, both of which
  the spec talks about.
- Fallible calls (HTTP requests that may raise) are `Except String`.
-/

namespace GitlabToolbox

/-- Query-parameter dictionary: insertion-ordered association list, as a model
of the Python `dict` the source mutates in place. -/
def Dict := List (String × String)

instance : DecidableEq Dict := by
  unfold Dict
  infer_instance

/-- Python dict assignment `d[k] = v`: overwrite in place if the key exists,
else append the new binding. -/
def dictSet : Dict → String → String → Dict
  | [], k, v => [(k, v)]
  | (k', v') :: rest, k, v =>
    if k' = k then (k', v) :: rest else (k', v') :: dictSet rest k v

/-- Python dict read `d.get(k)`. -/
def dictLookup : Dict → String → Option String
  | [], _ => none
  | (k', v') :: rest, k => if k' = k then some v' else dictLookup rest k

/-- Truthiness of a Python `Optional[int]`: `None` and `0` are falsy.  The
source guards `if limit:` with exactly this test. -/
def pyTruthy : Option Nat → Bool
  | none => false
  | some n => decide (0 < n)

/-- Truthiness of a Python `Optional[str]`: `None` and `""` are falsy. -/
def strTruthy : Option String → Bool
  | none => false
  | some s => decide (s ≠ "")

/-- A JSON response body as the pagination loop discriminates it:
either a JSON list or anything else (`isinstance(result, list)` fails). -/
inductive Resp (α : Type) where
  | list : List α → Resp α
  | other : Resp α
deriving DecidableEq

/-- The `while True` loop of `GitLabClient.paginate` (client.py lines 344-362),
run on fuel.  State: current page number, accumulated `items`, the `params`
dict, and the count of requests issued so far.  Each iteration writes
`params["page"]`, issues one request, and then follows the source's breaks:
non-list response, falsy (empty) list, limit reached (truncating to the
limit), or a short page; otherwise it recurses with `page + 1`. -/
def paginateGo (up : Nat → Resp α) (perPage : Nat) (limit : Option Nat) :
    Nat → Nat → List α → Dict → Nat → Option (List α × Dict × Nat)
  | 0, _, _, _, _ => none
  | fuel + 1, page, items, params, reqs =>
    let params' := dictSet params "page" (toString page)
    match up page with
    | Resp.other => some (items, params', reqs + 1)
    | Resp.list result =>
      if result.isEmpty then some (items, params', reqs + 1)
      else
        let items' := items ++ result
        if pyTruthy limit = true ∧ limit.getD 0 ≤ items'.length then
          some (items'.take (limit.getD 0), params', reqs + 1)
        else if result.length < perPage then
          some (items', params', reqs + 1)
        else
          paginateGo up perPage limit fuel (page + 1) items' params' (reqs + 1)

/-- The effective page size: `per_page = min(limit, per_page)` when a (truthy)
limit is given. -/
def effPerPage (perPage : Nat) (limit : Option Nat) : Nat :=
  if pyTruthy limit then min (limit.getD 0) perPage else perPage

/-- `GitLabClient.paginate` (client.py lines 314-364): shrink `per_page` under
a limit, write `params["per_page"]`, then run the page loop from page 1. -/
def paginate (up : Nat → Resp α) (params : Dict) (perPage : Nat)
    (limit : Option Nat) (fuel : Nat) : Option (List α × Dict × Nat) :=
  let pp := effPerPage perPage limit
  paginateGo up pp limit fuel 1 [] (dictSet params "per_page" (toString pp)) 0

/-- The caller-visible params dict after `paginate` returns.  The source
starts with `params = params or \x7b\x7d`: a falsy (empty) caller dict is
replaced by a fresh dict, so the caller's own dict is mutated only when it is
non-empty. -/
def paginateCallerParams (up : Nat → Resp α) (callerParams : Dict)
    (perPage : Nat) (limit : Option Nat) (fuel : Nat) : Option Dict :=
  if callerParams = [] then
    (paginate up callerParams perPage limit fuel).map (fun _ => callerParams)
  else
    (paginate up callerParams perPage limit fuel).map (fun r => r.2.1)

theorem dictLookup_dictSet_self (d : Dict) (k v : String) :
    dictLookup (dictSet d k v) k = some v := by
  induction d with
  | nil => simp [dictSet, dictLookup]
  | cons hd tl ih =>
    obtain ⟨k', v'⟩ := hd
    by_cases h : k' = k
    · simp [dictSet, dictLookup, h]
    · simp [dictSet, dictLookup, h, ih]

theorem dictLookup_dictSet_ne (d : Dict) (k v k' : String) (h : k' ≠ k) :
    dictLookup (dictSet d k v) k' = dictLookup d k' := by
  induction d with
  | nil => simp [dictSet, dictLookup, Ne.symm h]
  | cons hd tl ih =>
    obtain ⟨k₀, v₀⟩ := hd
    by_cases h0 : k₀ = k
    · subst h0
      simp [dictSet, dictLookup, Ne.symm h]
    · simp [dictSet, dictLookup, h0, ih]

theorem paginateGo_other {α : Type} {up : Nat → Resp α} {page : Nat}
    (pp : Nat) (limit : Option Nat) (fuel : Nat) (items : List α) (params : Dict)
    (reqs : Nat) (hup : up page = Resp.other) :
    paginateGo up pp limit (fuel + 1) page items params reqs
      = some (items, dictSet params "page" (toString page), reqs + 1) := by
  simp [paginateGo, hup]

theorem paginateGo_empty {α : Type} {up : Nat → Resp α} {page : Nat}
    (pp : Nat) (limit : Option Nat) (fuel : Nat) (items : List α) (params : Dict)
    (reqs : Nat) (hup : up page = Resp.list []) :
    paginateGo up pp limit (fuel + 1) page items params reqs
      = some (items, dictSet params "page" (toString page), reqs + 1) := by
  simp [paginateGo, hup]

theorem paginateGo_limitReached {α : Type} {up : Nat → Resp α} {page : Nat}
    {limit : Option Nat} {l items : List α}
    (pp : Nat) (fuel : Nat) (params : Dict) (reqs : Nat)
    (hup : up page = Resp.list l) (hne : l ≠ [])
    (hlim : pyTruthy limit = true ∧ limit.getD 0 ≤ (items ++ l).length) :
    paginateGo up pp limit (fuel + 1) page items params reqs
      = some ((items ++ l).take (limit.getD 0),
          dictSet params "page" (toString page), reqs + 1) := by
  simp only [paginateGo, hup]
  rw [if_neg (fun hemp => hne (List.isEmpty_iff.mp hemp)), if_pos hlim]

theorem paginateGo_short {α : Type} {up : Nat → Resp α} {page pp : Nat}
    {limit : Option Nat} {l items : List α}
    (fuel : Nat) (params : Dict) (reqs : Nat)
    (hup : up page = Resp.list l) (hne : l ≠ [])
    (hlim : ¬(pyTruthy limit = true ∧ limit.getD 0 ≤ (items ++ l).length))
    (hshort : l.length < pp) :
    paginateGo up pp limit (fuel + 1) page items params reqs
      = some (items ++ l, dictSet params "page" (toString page), reqs + 1) := by
  simp only [paginateGo, hup]
  rw [if_neg (fun hemp => hne (List.isEmpty_iff.mp hemp)), if_neg hlim,
    if_pos hshort]

theorem paginateGo_step {α : Type} {up : Nat → Resp α} {page pp : Nat}
    {limit : Option Nat} {l items : List α}
    (fuel : Nat) (params : Dict) (reqs : Nat)
    (hup : up page = Resp.list l) (hne : l ≠ [])
    (hlim : ¬(pyTruthy limit = true ∧ limit.getD 0 ≤ (items ++ l).length))
    (hshort : ¬(l.length < pp)) :
    paginateGo up pp limit (fuel + 1) page items params reqs
      = paginateGo up pp limit fuel (page + 1) (items ++ l)
          (dictSet params "page" (toString page)) (reqs + 1) := by
  simp only [paginateGo, hup]
  rw [if_neg (fun hemp => hne (List.isEmpty_iff.mp hemp)), if_neg hlim,
    if_neg hshort]

theorem paginateGo_params {α : Type} (up : Nat → Resp α) (pp : Nat)
    (limit : Option Nat) :
    ∀ (fuel page : Nat) (items : List α) (params : Dict) (reqs : Nat)
      (its : List α) (d' : Dict) (r : Nat),
      paginateGo up pp limit fuel page items params reqs = some (its, d', r) →
      (∀ k, k ≠ "page" → dictLookup d' k = dictLookup params k) ∧
      dictLookup d' "page" = some (toString (page + (r - reqs) - 1)) ∧
      reqs < r := by
  intro fuel
  induction fuel with
  | zero =>
    intro page items params reqs its d' r h
    simp [paginateGo] at h
  | succ n ih =>
    intro page items params reqs its d' r h
    have base :
        ∀ (js : List α),
          some (js, dictSet params "page" (toString page), reqs + 1)
            = some (its, d', r) →
          (∀ k, k ≠ "page" → dictLookup d' k = dictLookup params k) ∧
          dictLookup d' "page" = some (toString (page + (r - reqs) - 1)) ∧
          reqs < r := by
      intro js hjs
      simp only [Option.some.injEq, Prod.mk.injEq] at hjs
      obtain ⟨-, hd, hr⟩ := hjs
      subst hd
      refine ⟨fun k hk => dictLookup_dictSet_ne params "page" (toString page) k hk,
        ?_, by omega⟩
      have harith : page + (r - reqs) - 1 = page := by omega
      rw [harith]
      exact dictLookup_dictSet_self params "page" (toString page)
    cases hup : up page with
    | other =>
      rw [paginateGo_other pp limit n items params reqs hup] at h
      exact base items h
    | list l =>
      by_cases hl : l = []
      · subst hl
        rw [paginateGo_empty pp limit n items params reqs hup] at h
        exact base items h
      · by_cases hlim : pyTruthy limit = true ∧ limit.getD 0 ≤ (items ++ l).length
        · rw [paginateGo_limitReached pp n params reqs hup hl hlim] at h
          exact base _ h
        · by_cases hshort : l.length < pp
          · rw [paginateGo_short n params reqs hup hl hlim hshort] at h
            exact base _ h
          · rw [paginateGo_step n params reqs hup hl hlim hshort] at h
            obtain ⟨hframe, hpage, hlt⟩ :=
              ih (page + 1) (items ++ l) (dictSet params "page" (toString page))
                (reqs + 1) its d' r h
            refine ⟨?_, ?_, by omega⟩
            · intro k hk
              rw [hframe k hk, dictLookup_dictSet_ne params "page" (toString page) k hk]
            · have harith : page + 1 + (r - (reqs + 1)) - 1 = page + (r - reqs) - 1 := by
                omega
              rw [hpage, harith]

/-- A page at which the source's loop necessarily stops: a non-list response,
or a page shorter than `per_page` (which includes the empty page). -/
def pageTerminal (up : Nat → Resp α) (pp k : Nat) : Bool :=
  match up k with
  | Resp.other => true
  | Resp.list l => decide (l.length < pp)

theorem paginateGo_isSome_of_terminal {α : Type} (up : Nat → Resp α) (pp : Nat)
    (limit : Option Nat) :
    ∀ (fuel page : Nat) (items : List α) (params : Dict) (reqs k : Nat),
      page ≤ k → k - page < fuel → pageTerminal up pp k = true →
      (paginateGo up pp limit fuel page items params reqs).isSome := by
  intro fuel
  induction fuel with
  | zero => intro page items params reqs k h1 h2 h3; omega
  | succ n ih =>
    intro page items params reqs k h1 h2 h3
    cases hup : up page with
    | other => rw [paginateGo_other pp limit n items params reqs hup]; rfl
    | list l =>
      by_cases hl : l = []
      · subst hl
        rw [paginateGo_empty pp limit n items params reqs hup]; rfl
      · by_cases hlim : pyTruthy limit = true ∧ limit.getD 0 ≤ (items ++ l).length
        · rw [paginateGo_limitReached pp n params reqs hup hl hlim]; rfl
        · by_cases hshort : l.length < pp
          · rw [paginateGo_short n params reqs hup hl hlim hshort]; rfl
          · rw [paginateGo_step n params reqs hup hl hlim hshort]
            have hne : k ≠ page := by
              intro heq
              rw [heq, pageTerminal, hup] at h3
              simp at h3
              omega
            exact ih (page + 1) (items ++ l)
              (dictSet params "page" (toString page)) (reqs + 1) k
              (by omega) (by omega) h3

theorem paginateGo_isSome_of_limit {α : Type} (up : Nat → Resp α) (pp : Nat)
    (limit : Option Nat) (hlimit : pyTruthy limit = true) :
    ∀ (fuel page : Nat) (items : List α) (params : Dict) (reqs : Nat),
      items.length < limit.getD 0 → limit.getD 0 - items.length ≤ fuel →
      (paginateGo up pp limit fuel page items params reqs).isSome := by
  intro fuel
  induction fuel with
  | zero => intro page items params reqs h1 h2; omega
  | succ n ih =>
    intro page items params reqs h1 h2
    cases hup : up page with
    | other => rw [paginateGo_other pp limit n items params reqs hup]; rfl
    | list l =>
      by_cases hl : l = []
      · subst hl
        rw [paginateGo_empty pp limit n items params reqs hup]; rfl
      · by_cases hlim : pyTruthy limit = true ∧ limit.getD 0 ≤ (items ++ l).length
        · rw [paginateGo_limitReached pp n params reqs hup hl hlim]; rfl
        · by_cases hshort : l.length < pp
          · rw [paginateGo_short n params reqs hup hl hlim hshort]; rfl
          · rw [paginateGo_step n params reqs hup hl hlim hshort]
            have hlen : 0 < l.length := List.length_pos.mpr hl
            have hlt : (items ++ l).length < limit.getD 0 := by
              rcases not_and_or.mp hlim with hc | hc
              · exact absurd hlimit hc
              · omega
            apply ih (page + 1) (items ++ l)
              (dictSet params "page" (toString page)) (reqs + 1) hlt
            rw [List.length_append] at hlt ⊢
            omega

/-- Modelled from the spec: `GitLabClient.paginate_optional` is called by
`MergeRequestsAPI.get_merge_requests` but its definition is not among the
provided sources.  Per the spec (§4.2), it behaves like `paginate` except
that the "endpoint absent / unexpected shape" condition — the (first) page
response is not a list — yields `none`, distinguishable from `some []`
(zero results).  The outer `Option` is fuel exhaustion, the inner one is the
absent-endpoint sentinel. -/
def paginate_optional (up : Nat → Resp α) (params : Dict) (perPage : Nat)
    (limit : Option Nat) (fuel : Nat) : Option (Option (List α)) :=
  match fuel with
  | 0 => none
  | _ + 1 =>
    match up 1 with
    | Resp.other => some none
    | Resp.list _ => (paginate up params perPage limit fuel).map (fun r => some r.1)

/-- Outcome of a single-resource request: the resource, or an HTTP failure
such as a 404. -/
inductive SingleResp (α : Type) where
  | found : α → SingleResp α
  | notFound : SingleResp α

/-- Modelled from the spec: `GitLabClient._run_api_request_optional` is called
throughout the resource fetchers but its definition is not among the provided
sources.  Per the spec (§7), it is the "safe"/"optional" variant of
`_run_api_request` that converts absence into `None` instead of raising. -/
def run_api_request_optional : SingleResp α → Option α
  | SingleResp.found a => some a
  | SingleResp.notFound => none

/-- C1: an endpoint whose first page response is not a list yields the `none`
sentinel from the optional pagination variant (and the single-resource
optional variant yields `none` for an absent resource, not an exception),
while the non-optional `paginate` returns `[]` after that one request; the
two outcomes are distinguishable. -/
theorem paginate_absent_vs_empty {α : Type} (up : Nat → Resp α) (params : Dict)
    (perPage : Nat) (limit : Option Nat) (fuel : Nat)
    (h : up 1 = Resp.other) :
    paginate_optional up params perPage limit (fuel + 1) = some none ∧
    (∃ d', paginate up params perPage limit (fuel + 1) = some ([], d', 1)) ∧
    (none : Option (List α)) ≠ some [] ∧
    run_api_request_optional (SingleResp.notFound : SingleResp (List α)) = none := by
  refine ⟨?_,
    ⟨_, paginateGo_other (effPerPage perPage limit) limit fuel []
      (dictSet params "per_page" (toString (effPerPage perPage limit))) 0 h⟩,
    by simp, rfl⟩
  simp [paginate_optional, h]

theorem paginate_absent_vs_empty_witness :
    paginate_optional (fun _ => (Resp.other : Resp Nat)) [] 100 none 1 = some none ∧
    (∃ d', paginate (fun _ => (Resp.other : Resp Nat)) [] 100 none 1 = some ([], d', 1)) ∧
    (none : Option (List Nat)) ≠ some [] ∧
    run_api_request_optional (SingleResp.notFound : SingleResp (List Nat)) = none :=
  paginate_absent_vs_empty (fun _ => Resp.other) [] 100 none 0 rfl

/-- C9: the pagination loop terminates (some fuel suffices) whenever some
requested page is terminal — a non-list response or a page shorter than the
effective page size — or whenever a (truthy) limit is set: every non-final
iteration strictly increases the page number and appends at least one item. -/
theorem paginate_terminates {α : Type} (up : Nat → Resp α) (params : Dict)
    (perPage : Nat) (limit : Option Nat)
    (h : (∃ k, 1 ≤ k ∧ pageTerminal up (effPerPage perPage limit) k = true) ∨
      pyTruthy limit = true) :
    ∃ fuel, (paginate up params perPage limit fuel).isSome := by
  rcases h with ⟨k, hk1, hkt⟩ | hlim
  · exact ⟨k, paginateGo_isSome_of_terminal up (effPerPage perPage limit) limit k 1
      [] (dictSet params "per_page" (toString (effPerPage perPage limit))) 0 k hk1
      (by omega) hkt⟩
  · have hpos : 0 < limit.getD 0 := by
      cases limit with
      | none => simp [pyTruthy] at hlim
      | some n => simpa [pyTruthy] using hlim
    refine ⟨limit.getD 0, ?_⟩
    exact paginateGo_isSome_of_limit up (effPerPage perPage limit) limit hlim
      (limit.getD 0) 1 [] (dictSet params "per_page" (toString (effPerPage perPage limit)))
      0 (by simpa using hpos) (by simp)

theorem paginate_terminates_witness :
    ∃ fuel, (paginate (fun _ => (Resp.other : Resp Nat)) [] 100 none fuel).isSome :=
  paginate_terminates (fun _ => Resp.other) [] 100 none (Or.inl ⟨1, Nat.le_refl 1, rfl⟩)

/-- C10 fails as stated: a caller-supplied EMPTY params dict is falsy, so
`params = params or \x7b\x7d` replaces it with a fresh dict and the caller's
dict is never mutated — after the call it holds neither "per_page" nor
"page". -/
theorem paginate_params_empty_dict_counterexample :
    paginateCallerParams (fun _ => (Resp.other : Resp Nat)) [] 100 none 1
        = some [] ∧
    dictLookup [] "per_page" = none ∧ dictLookup [] "page" = none := by
  refine ⟨rfl, rfl, rfl⟩

/-- C10 (amended): for a NON-empty caller-supplied params dict, after a
completed `paginate` call the caller's dict holds "per_page" (the effective
page size, written once) and "page" (the last requested page number, i.e. the
number of requests issued), and every other key is unchanged. -/
theorem paginate_params_effect_nonempty {α : Type} (up : Nat → Resp α) (d : Dict)
    (perPage : Nat) (limit : Option Nat) (fuel : Nat)
    (its : List α) (d' : Dict) (r : Nat)
    (hne : d ≠ [])
    (h : paginate up d perPage limit fuel = some (its, d', r)) :
    paginateCallerParams up d perPage limit fuel = some d' ∧
    dictLookup d' "per_page" = some (toString (effPerPage perPage limit)) ∧
    dictLookup d' "page" = some (toString r) ∧
    ∀ k, k ≠ "per_page" → k ≠ "page" → dictLookup d' k = dictLookup d k := by
  obtain ⟨hframe, hpage, hr⟩ :=
    paginateGo_params up (effPerPage perPage limit) limit fuel 1 []
      (dictSet d "per_page" (toString (effPerPage perPage limit))) 0 its d' r h
  refine ⟨?_, ?_, ?_, ?_⟩
  · rw [paginateCallerParams, if_neg hne, h]
    rfl
  · rw [hframe "per_page" (by decide)]
    exact dictLookup_dictSet_self d "per_page" (toString (effPerPage perPage limit))
  · have harith : 1 + (r - 0) - 1 = r := by omega
    rw [harith] at hpage
    exact hpage
  · intro k hk1 hk2
    rw [hframe k hk2,
      dictLookup_dictSet_ne d "per_page" (toString (effPerPage perPage limit)) k hk1]

theorem paginate_params_effect_nonempty_witness :
    paginateCallerParams (fun _ => (Resp.other : Resp Nat)) [("a", "b")] 100 none 1
        = some (dictSet (dictSet [("a", "b")] "per_page" (toString 100)) "page"
            (toString 1)) ∧
    dictLookup (dictSet (dictSet [("a", "b")] "per_page" (toString 100)) "page"
        (toString 1)) "per_page" = some (toString (effPerPage 100 none)) ∧
    dictLookup (dictSet (dictSet [("a", "b")] "per_page" (toString 100)) "page"
        (toString 1)) "page" = some (toString 1) ∧
    ∀ k, k ≠ "per_page" → k ≠ "page" →
      dictLookup (dictSet (dictSet [("a", "b")] "per_page" (toString 100)) "page"
        (toString 1)) k = dictLookup [("a", "b")] k :=
  paginate_params_effect_nonempty (fun _ => Resp.other) [("a", "b")] 100 none 1
    [] (dictSet (dictSet [("a", "b")] "per_page" (toString 100)) "page" (toString 1))
    1 (by simp) rfl

theorem paginateGo_step_nolimit {α : Type} {up : Nat → Resp α} {page pp : Nat}
    {l items : List α} (fuel : Nat) (params : Dict) (reqs : Nat)
    (hup : up page = Resp.list l) (hfull : l.length = pp) (hpp : 0 < pp) :
    paginateGo up pp none (fuel + 1) page items params reqs
      = paginateGo up pp none fuel (page + 1) (items ++ l)
          (dictSet params "page" (toString page)) (reqs + 1) :=
  paginateGo_step fuel params reqs hup
    (by intro hl; rw [hl] at hfull; simp at hfull; omega)
    (by rintro ⟨hc, -⟩; simp [pyTruthy] at hc)
    (by omega)

theorem paginateGo_final_nolimit {α : Type} {up : Nat → Resp α} {page pp : Nat}
    {l items : List α} (fuel : Nat) (params : Dict) (reqs : Nat)
    (hup : up page = Resp.list l) (hne : l ≠ []) (hshort : l.length < pp) :
    paginateGo up pp none (fuel + 1) page items params reqs
      = some (items ++ l, dictSet params "page" (toString page), reqs + 1) :=
  paginateGo_short fuel params reqs hup hne
    (by rintro ⟨hc, -⟩; simp [pyTruthy] at hc) hshort

/-- C3: against an upstream serving pages of sizes [100, 100, 100, 42] (with
the default page size 100), `paginate` with no limit returns all 342 items
concatenated in upstream order after 4 requests; with `limit = 150` it
returns exactly the first 150 items of that stream and issues exactly 2 page
requests. -/
theorem paginate_pages_100_100_100_42 {α : Type} (up : Nat → Resp α) (d : Dict)
    (p1 p2 p3 p4 : List α)
    (h1 : up 1 = Resp.list p1) (h2 : up 2 = Resp.list p2)
    (h3 : up 3 = Resp.list p3) (h4 : up 4 = Resp.list p4)
    (l1 : p1.length = 100) (l2 : p2.length = 100)
    (l3 : p3.length = 100) (l4 : p4.length = 42) :
    (∃ d', paginate up d 100 none 4 = some (p1 ++ p2 ++ p3 ++ p4, d', 4)) ∧
    (p1 ++ p2 ++ p3 ++ p4).length = 342 ∧
    (∃ d', paginate up d 100 (some 150) 2 = some ((p1 ++ p2).take 150, d', 2)) ∧
    ((p1 ++ p2).take 150).length = 150 ∧
    (p1 ++ p2).take 150 = (p1 ++ p2 ++ p3 ++ p4).take 150 := by
  have hlen12 : (p1 ++ p2).length = 200 := by
    rw [List.length_append, l1, l2]
  have hlen123 : (p1 ++ p2 ++ p3).length = 300 := by
    rw [List.length_append, hlen12, l3]
  have hpp : effPerPage 100 (some 150) = 100 := rfl
  have hne1 : p1 ≠ [] := by intro hl; rw [hl] at l1; simp at l1
  have hne2 : p2 ≠ [] := by intro hl; rw [hl] at l2; simp at l2
  refine ⟨?_, by simp [l1, l2, l3, l4], ?_, ?_, ?_⟩
  · exact ⟨_,
      (paginateGo_step_nolimit 3
          (dictSet d "per_page" (toString 100)) 0 h1 l1 (by omega)).trans
        ((paginateGo_step_nolimit 2 _ 1 h2 l2 (by omega)).trans
          ((paginateGo_step_nolimit 1 _ 2 h3 l3 (by omega)).trans
            (paginateGo_final_nolimit 0 _ 3 h4
              (by intro hl; rw [hl] at l4; simp at l4) (by omega))))⟩
  · have s1 : paginateGo up 100 (some 150) 2 1 []
        (dictSet d "per_page" (toString 100)) 0
        = paginateGo up 100 (some 150) 1 2 ([] ++ p1)
            (dictSet (dictSet d "per_page" (toString 100)) "page" (toString 1)) 1 :=
      paginateGo_step 1 (dictSet d "per_page" (toString 100)) 0 h1 hne1
        (by rintro ⟨-, hle⟩; rw [List.nil_append, l1] at hle; simp at hle)
        (by rw [l1]; omega)
    have s2 : paginateGo up 100 (some 150) 1 2 ([] ++ p1)
        (dictSet (dictSet d "per_page" (toString 100)) "page" (toString 1)) 1
        = some ((([] ++ p1) ++ p2).take ((some 150 : Option Nat).getD 0),
            dictSet (dictSet (dictSet d "per_page" (toString 100)) "page"
              (toString 1)) "page" (toString 2), 2) :=
      paginateGo_limitReached 100 0
        (dictSet (dictSet d "per_page" (toString 100)) "page" (toString 1)) 1
        h2 hne2
        (by
          refine ⟨rfl, ?_⟩
          rw [List.nil_append, List.length_append, l1, l2]
          simp)
    exact ⟨_, s1.trans s2⟩
  · rw [List.length_take, hlen12]
    omega
  · conv_rhs => rw [List.take_append_of_le_length (by omega),
      List.take_append_of_le_length (by omega)]

theorem paginate_pages_witness :
    (∃ d', paginate
        (fun i => Resp.list (if i ≤ 3 then List.replicate 100 0 else List.replicate 42 (0 : Nat)))
        [] 100 none 4
      = some (List.replicate 100 0 ++ List.replicate 100 0 ++ List.replicate 100 0
          ++ List.replicate 42 0, d', 4)) ∧
    (List.replicate 100 0 ++ List.replicate 100 0 ++ List.replicate 100 0
        ++ List.replicate 42 (0 : Nat)).length = 342 ∧
    (∃ d', paginate
        (fun i => Resp.list (if i ≤ 3 then List.replicate 100 0 else List.replicate 42 (0 : Nat)))
        [] 100 (some 150) 2
      = some ((List.replicate 100 0 ++ List.replicate 100 0).take 150, d', 2)) ∧
    ((List.replicate 100 0 ++ List.replicate 100 (0 : Nat)).take 150).length = 150 ∧
    (List.replicate 100 0 ++ List.replicate 100 (0 : Nat)).take 150
      = (List.replicate 100 0 ++ List.replicate 100 0 ++ List.replicate 100 0
          ++ List.replicate 42 0).take 150 :=
  paginate_pages_100_100_100_42
    (fun i => Resp.list (if i ≤ 3 then List.replicate 100 0 else List.replicate 42 (0 : Nat)))
    [] (List.replicate 100 0) (List.replicate 100 0) (List.replicate 100 0)
    (List.replicate 42 0) rfl rfl rfl rfl
    (List.length_replicate 100 0) (List.length_replicate 100 0)
    (List.length_replicate 100 0) (List.length_replicate 42 0)

/-- Is the first list an initial segment of the second? -/
def listIsPre {β : Type} [DecidableEq β] : List β → List β → Bool
  | [], _ => true
  | _ :: _, [] => false
  | a :: as, b :: bs => decide (a = b) && listIsPre as bs

/-- Python `s.startswith(pre)`. -/
def pyStartsWith (pre s : String) : Bool := listIsPre pre.data s.data

/-- Python `s.endswith(suf)`. -/
def pyEndsWith (suf s : String) : Bool := listIsPre suf.data.reverse s.data.reverse

/-- Python `s.split(sep)` (single-character separator, explicit argument):
splitting the empty string gives `[""]`, adjacent separators give empty
components. -/
def pySplitChar (sep : Char) : List Char → List (List Char)
  | [] => [[]]
  | c :: rest =>
    if c = sep then [] :: pySplitChar sep rest
    else
      match pySplitChar sep rest with
      | [] => [[c]]
      | h :: t => (c :: h) :: t

def pySplit (sep : Char) (s : String) : List String :=
  (pySplitChar sep s.data).map String.mk

def pyDigitsVal (cs : List Char) : Option Nat :=
  if cs.isEmpty then none
  else if cs.all Char.isDigit then
    some (cs.foldl (fun n c => n * 10 + (c.toNat - 48)) 0)
  else none

/-- Python `int(s)` on a decimal string: optional surrounding whitespace,
optional sign, then a non-empty run of digits; anything else raises
`ValueError`, modelled as `none`. -/
def pyInt? (s : String) : Option Int :=
  match ((s.data.dropWhile Char.isWhitespace).reverse.dropWhile
      Char.isWhitespace).reverse with
  | '+' :: rest => (pyDigitsVal rest).map (fun n => (n : Int))
  | '-' :: rest => (pyDigitsVal rest).map (fun n => -(n : Int))
  | t => (pyDigitsVal t).map (fun n => (n : Int))

/-- A pipeline record as `models/pipeline.py` declares it. -/
structure Pipeline where
  id : Int
  iid : Int
  project_id : Int
  status : String
  ref : String
  sha : String
  web_url : String
  created_at : String
  updated_at : String
  duration : Option Int
deriving DecidableEq

/-- A merge-request record as `MergeRequestsAPI._parse_merge_request`
produces it from the raw response dict (absent keys become `None`;
`author` defaults to "unknown", the draft flags to `False`). -/
structure MergeRequest where
  id : Option Int
  iid : Option Int
  title : Option String
  description : Option String
  state : Option String
  author : String
  source_branch : Option String
  target_branch : Option String
  web_url : Option String
  created_at : Option String
  updated_at : Option String
  merged_at : Option String
  draft : Bool
  work_in_progress : Bool
  project_id : Option Int
deriving DecidableEq

/-- The iid-extraction check of the cross-reference filter
(merge_requests.py lines 157-172): the ref must start with
"refs/merge-requests/" and end with "/head"; component 2 of the
"/"-split is parsed with `int(...)`; `ValueError`/`IndexError` mean
"not an MR pipeline". -/
def parseMrIid (ref : String) : Option Int :=
  if pyStartsWith "refs/merge-requests/" ref && pyEndsWith "/head" ref then
    match (pySplit '/' ref)[2]? with
    | some s => pyInt? s
    | none => none
  else none

/-- Lookup in the iid → status index (a Python dict with int keys). -/
def idxLookup : List (Int × String) → Int → Option String
  | [], _ => none
  | (k, v) :: rest, i => if k = i then some v else idxLookup rest i

/-- One pipeline's contribution to the index: only refs that parse to an MR
iid count, and an iid already present is never overwritten
(`if mr_iid not in mr_latest_pipeline_status`). -/
def mrIndexStep (idx : List (Int × String)) (p : Pipeline) : List (Int × String) :=
  match parseMrIid p.ref with
  | some iid => if (idxLookup idx iid).isSome then idx else idx ++ [(iid, p.status)]
  | none => idx

/-- The iid → latest-pipeline-status index built over the fetched pipeline
list in order (merge_requests.py lines 154-172). -/
def buildMrIndex (pipelines : List Pipeline) : List (Int × String) :=
  pipelines.foldl mrIndexStep []

/-- The filtering loop over the merge requests (merge_requests.py lines
175-193): keep an MR iff its iid is in the index with exactly the desired
status. -/
def filter_mrs_loop (idx : List (Int × String)) (pipeline_status : String) :
    List MergeRequest → List MergeRequest
  | [] => []
  | mr :: rest =>
    match mr.iid.bind (idxLookup idx) with
    | some latest =>
      if latest = pipeline_status then
        mr :: filter_mrs_loop idx pipeline_status rest
      else filter_mrs_loop idx pipeline_status rest
    | none => filter_mrs_loop idx pipeline_status rest

/-- `MergeRequestsAPI._filter_mrs_by_pipeline_status_ultra_efficient`
(merge_requests.py lines 111-198).  A falsy project path or empty MR list
short-circuits to `[]`; the pipeline fetch (`PipelinesAPI.get_pipelines`,
the only fallible step inside the `try`) is an `Except` parameter; any
exception is caught and collapses the result to `[]`. -/
def filter_mrs_by_pipeline_status_ultra_efficient
    (fetch_pipelines : Except String (List Pipeline))
    (mrs : List MergeRequest) (project_path : Option String)
    (pipeline_status : String) : List MergeRequest :=
  if !strTruthy project_path || mrs.isEmpty then []
  else
    match fetch_pipelines with
    | Except.error _ => []
    | Except.ok pipelines =>
      filter_mrs_loop (buildMrIndex pipelines) pipeline_status mrs

theorem idxLookup_append_single (idx : List (Int × String)) (j : Int) (v : String)
    (i : Int) :
    idxLookup (idx ++ [(j, v)]) i
      = match idxLookup idx i with
        | some w => some w
        | none => if j = i then some v else none := by
  induction idx with
  | nil => simp [idxLookup]
  | cons hd tl ih =>
    obtain ⟨k, w⟩ := hd
    by_cases hk : k = i
    · simp [idxLookup, hk]
    · simp only [List.cons_append, idxLookup, if_neg hk]
      exact ih

theorem buildMrIndex_foldl_of_isSome (ps : List Pipeline) :
    ∀ (idx : List (Int × String)) (i : Int), (idxLookup idx i).isSome →
      idxLookup (ps.foldl mrIndexStep idx) i = idxLookup idx i := by
  induction ps with
  | nil => intro idx i h; rfl
  | cons p rest ih =>
    intro idx i h
    rw [List.foldl_cons]
    have hstep : idxLookup (mrIndexStep idx p) i = idxLookup idx i := by
      cases hp : parseMrIid p.ref with
      | none => simp only [mrIndexStep, hp]
      | some j =>
        simp only [mrIndexStep, hp]
        by_cases hseen : (idxLookup idx j).isSome
        · rw [if_pos hseen]
        · rw [if_neg hseen, idxLookup_append_single]
          obtain ⟨w, hw⟩ := Option.isSome_iff_exists.mp h
          rw [hw]
    rw [ih (mrIndexStep idx p) i (by rw [hstep]; exact h), hstep]

theorem buildMrIndex_foldl_of_none (ps : List Pipeline) :
    ∀ (idx : List (Int × String)) (i : Int), idxLookup idx i = none →
      idxLookup (ps.foldl mrIndexStep idx) i
        = (ps.find? (fun p => decide (parseMrIid p.ref = some i))).map
            Pipeline.status := by
  induction ps with
  | nil => intro idx i h; simpa [List.find?] using h
  | cons p rest ih =>
    intro idx i h
    rw [List.foldl_cons]
    cases hp : parseMrIid p.ref with
    | none =>
      rw [List.find?_cons_of_neg _ (by simp [hp]),
        show mrIndexStep idx p = idx by simp only [mrIndexStep, hp]]
      exact ih idx i h
    | some j =>
      by_cases hj : j = i
      · subst hj
        have hstep : mrIndexStep idx p = idx ++ [(j, p.status)] := by
          simp only [mrIndexStep, hp]
          rw [if_neg (by rw [h]; simp)]
        rw [List.find?_cons_of_pos _ (by simp [hp]), hstep]
        have hlook : idxLookup (idx ++ [(j, p.status)]) j = some p.status := by
          rw [idxLookup_append_single, h]
          simp
        rw [buildMrIndex_foldl_of_isSome rest (idx ++ [(j, p.status)]) j
          (by rw [hlook]; rfl), hlook]
        rfl
      · rw [List.find?_cons_of_neg _ (by simp [hp, hj])]
        have hmatch :
            List.foldl mrIndexStep (mrIndexStep idx p) rest
              = List.foldl mrIndexStep
                  (if (idxLookup idx j).isSome then idx
                    else idx ++ [(j, p.status)]) rest := by
          simp only [mrIndexStep, hp]
        rw [hmatch]
        by_cases hseen : (idxLookup idx j).isSome
        · rw [if_pos hseen]
          exact ih idx i h
        · rw [if_neg hseen]
          apply ih
          rw [idxLookup_append_single, h, if_neg hj]

/-- C4: the index maps an iid to the status of the FIRST pipeline of the
fetched list (in list order) whose ref parses to that iid via the
`refs/merge-requests/<iid>/head` pattern; later pipelines for the same iid
never overwrite it.  In particular two pipelines for iid 5 ordered
[running, success] index iid 5 as "running". -/
theorem mr_pipeline_index_first_wins :
    (∀ (pipelines : List Pipeline) (iid : Int),
      idxLookup (buildMrIndex pipelines) iid
        = (pipelines.find? (fun p => decide (parseMrIid p.ref = some iid))).map
            Pipeline.status) ∧
    idxLookup (buildMrIndex
      [⟨1, 1, 1, "running", "refs/merge-requests/5/head", "c1", "u1", "t1", "t1", none⟩,
       ⟨2, 2, 1, "success", "refs/merge-requests/5/head", "c2", "u2", "t2", "t2", none⟩])
      5 = some "running" := by
  constructor
  · intro pipelines iid
    exact buildMrIndex_foldl_of_none pipelines [] iid rfl
  · decide

theorem filter_mrs_loop_eq_filter (idx : List (Int × String)) (st : String) :
    ∀ mrs : List MergeRequest,
      filter_mrs_loop idx st mrs
        = mrs.filter (fun mr => decide (mr.iid.bind (idxLookup idx) = some st)) := by
  intro mrs
  induction mrs with
  | nil => rfl
  | cons mr rest ih =>
    rw [filter_mrs_loop]
    cases hb : mr.iid.bind (idxLookup idx) with
    | none => simp [List.filter_cons, hb, ih]
    | some latest =>
      by_cases hst : latest = st
      · subst hst
        simp [List.filter_cons, hb, ih]
      · simp [List.filter_cons, hb, hst, ih]

/-- C5: with a truthy project path, the cross-reference filter returns
exactly the input merge requests whose indexed latest pipeline status is
string-equal to the desired status (an MR with no index entry is excluded),
as a subsequence of the input (relative order preserved). -/
theorem filter_mrs_by_status_exact (pipelines : List Pipeline)
    (mrs : List MergeRequest) (project_path : Option String) (st : String)
    (hpp : strTruthy project_path = true) :
    filter_mrs_by_pipeline_status_ultra_efficient (Except.ok pipelines) mrs
        project_path st
      = mrs.filter (fun mr =>
          decide (mr.iid.bind (idxLookup (buildMrIndex pipelines)) = some st)) ∧
    (filter_mrs_by_pipeline_status_ultra_efficient (Except.ok pipelines) mrs
        project_path st).Sublist mrs := by
  have heq : filter_mrs_by_pipeline_status_ultra_efficient (Except.ok pipelines)
      mrs project_path st
      = mrs.filter (fun mr =>
          decide (mr.iid.bind (idxLookup (buildMrIndex pipelines)) = some st)) := by
    rw [filter_mrs_by_pipeline_status_ultra_efficient, hpp]
    cases mrs with
    | nil => simp
    | cons mr rest =>
      simp only [Bool.not_true, List.isEmpty_cons, Bool.false_or, if_neg]
      exact filter_mrs_loop_eq_filter _ st (mr :: rest)
  refine ⟨heq, ?_⟩
  rw [heq]
  exact List.filter_sublist mrs

theorem filter_mrs_by_status_exact_witness :
    filter_mrs_by_pipeline_status_ultra_efficient
        (Except.ok [⟨1, 1, 1, "running", "refs/merge-requests/5/head", "c", "u", "t", "t", none⟩])
        [⟨some 10, some 5, none, none, none, "unknown", none, none, none, none, none,
          none, false, false, none⟩]
        (some "group/project") "running"
      = [⟨some 10, some 5, none, none, none, "unknown", none, none, none, none, none,
          none, false, false, none⟩].filter (fun mr =>
          decide (mr.iid.bind (idxLookup (buildMrIndex
            [⟨1, 1, 1, "running", "refs/merge-requests/5/head", "c", "u", "t", "t", none⟩]))
              = some "running")) ∧
    (filter_mrs_by_pipeline_status_ultra_efficient
        (Except.ok [⟨1, 1, 1, "running", "refs/merge-requests/5/head", "c", "u", "t", "t", none⟩])
        [⟨some 10, some 5, none, none, none, "unknown", none, none, none, none, none,
          none, false, false, none⟩]
        (some "group/project") "running").Sublist
      [⟨some 10, some 5, none, none, none, "unknown", none, none, none, none, none,
        none, false, false, none⟩] :=
  filter_mrs_by_status_exact
    [⟨1, 1, 1, "running", "refs/merge-requests/5/head", "c", "u", "t", "t", none⟩]
    [⟨some 10, some 5, none, none, none, "unknown", none, none, none, none, none,
      none, false, false, none⟩]
    (some "group/project") "running" (by decide)

/-- C6: if the fallible part of the cross-reference filter (the pipeline
fetch inside its `try`) raises, the filter returns the empty list — the
exception is caught, not propagated, and the unfiltered input is never
returned. -/
theorem filter_mrs_error_empty :
    ∀ (e : String) (mrs : List MergeRequest) (project_path : Option String)
      (st : String),
      filter_mrs_by_pipeline_status_ultra_efficient (Except.error e) mrs
        project_path st = [] := by
  intro e mrs project_path st
  rw [filter_mrs_by_pipeline_status_ultra_efficient]
  by_cases h : (!strTruthy project_path || mrs.isEmpty) = true
  · rw [if_pos h]
  · rw [if_neg h]

/-- The "author" sub-dict of a raw merge-request response. -/
structure RawAuthor where
  username : Option String
deriving DecidableEq

/-- A raw merge-request response dict, with the keys
`MergeRequestsAPI._parse_merge_request` reads (absent keys are `none`). -/
structure MRData where
  id : Option Int
  iid : Option Int
  title : Option String
  description : Option String
  state : Option String
  author : Option RawAuthor
  source_branch : Option String
  target_branch : Option String
  web_url : Option String
  created_at : Option String
  updated_at : Option String
  merged_at : Option String
  draft : Option Bool
  work_in_progress : Option Bool
  project_id : Option Int
deriving DecidableEq

/-- `MergeRequestsAPI._parse_merge_request` (merge_requests.py lines
200-227). -/
def parse_merge_request (data : MRData) : MergeRequest :=
  let author := data.author.getD ⟨none⟩
  { id := data.id
    iid := data.iid
    title := data.title
    description := data.description
    state := data.state
    author := author.username.getD "unknown"
    source_branch := data.source_branch
    target_branch := data.target_branch
    web_url := data.web_url
    created_at := data.created_at
    updated_at := data.updated_at
    merged_at := data.merged_at
    draft := data.draft.getD false
    work_in_progress := data.work_in_progress.getD false
    project_id := data.project_id }

/-- The fetch limit passed to the pagination stage by
`MergeRequestsAPI.get_merge_requests` (merge_requests.py line 53):
`None if pipeline_status else limit`. -/
def fetch_limit (pipeline_status : Option String) (limit : Option Nat) :
    Option Nat :=
  if strTruthy pipeline_status then none else limit

/-- `MergeRequestsAPI.get_merge_requests` (merge_requests.py lines 18-85).
The pagination stage (`GitLabClient.paginate_optional`, absent from the
provided sources) is an oracle mapping the limit passed to it to its
outcome: the `none` sentinel (project/endpoint not found → return `[]`) or
the raw item list.  The pipeline fetch inside the status filter is the
`Except` oracle.  When a (truthy) pipeline status is requested, the fetch
limit is `fetch_limit` (i.e. `None`) and the caller's limit is applied
after filtering. -/
def get_merge_requests
    (fetch : Option Nat → Option (List MRData))
    (fetch_pipelines : Except String (List Pipeline))
    (project_path : Option String)
    (pipeline_status : Option String)
    (limit : Option Nat) : List MergeRequest :=
  match fetch (fetch_limit pipeline_status limit) with
  | none => []
  | some mrs_data =>
    let mrs := mrs_data.map parse_merge_request
    if strTruthy pipeline_status then
      let filtered := filter_mrs_by_pipeline_status_ultra_efficient
        fetch_pipelines mrs project_path (pipeline_status.getD "")
      if pyTruthy limit then filtered.take (limit.getD 0) else filtered
    else mrs

/-- C7: when a pipeline status is requested, the pagination stage is invoked
with no limit (`fetch_limit` is `None`) and the caller's limit is applied
only after the pipeline-status filtering, so the result is the first `n`
elements of the filtered list. -/
theorem get_merge_requests_limit_after_filter
    (fetch : Option Nat → Option (List MRData))
    (fetch_pipelines : Except String (List Pipeline))
    (project_path : Option String) (pipeline_status : Option String)
    (n : Nat) (data : List MRData)
    (hps : strTruthy pipeline_status = true)
    (hf : fetch none = some data)
    (hn : 0 < n) :
    fetch_limit pipeline_status (some n) = none ∧
    get_merge_requests fetch fetch_pipelines project_path pipeline_status (some n)
      = (filter_mrs_by_pipeline_status_ultra_efficient fetch_pipelines
          (data.map parse_merge_request) project_path
          (pipeline_status.getD "")).take n := by
  have hfl : fetch_limit pipeline_status (some n) = none := by
    rw [fetch_limit, hps]
    rfl
  refine ⟨hfl, ?_⟩
  rw [get_merge_requests, hfl, hf]
  simp only [hps, if_true]
  rw [if_pos (by simp [pyTruthy]; omega)]
  rfl

theorem get_merge_requests_limit_after_filter_witness :
    fetch_limit (some "success") (some 1) = none ∧
    get_merge_requests (fun _ => some []) (Except.error "boom") (some "g/p")
        (some "success") (some 1)
      = (filter_mrs_by_pipeline_status_ultra_efficient (Except.error "boom")
          (([] : List MRData).map parse_merge_request) (some "g/p")
          ((some "success").getD "")).take 1 :=
  get_merge_requests_limit_after_filter (fun _ => some []) (Except.error "boom")
    (some "g/p") (some "success") 1 [] (by decide) rfl (by decide)

/-- Python `s.lower()` (ASCII case folding). -/
def pyLower (s : String) : String := String.mk (s.data.map Char.toLower)

/-- Python `s.strip()`: drop whitespace from both ends. -/
def pyStrip (s : String) : String :=
  String.mk (((s.data.dropWhile Char.isWhitespace).reverse.dropWhile
    Char.isWhitespace).reverse)

/-- Python `s.isdigit()` (ASCII digits): non-empty and all digits. -/
def pyIsDigit (s : String) : Bool := !s.data.isEmpty && s.data.all Char.isDigit

/-- A group dict, with the keys `GroupsAPI.get_group`'s fallback resolution
reads (`g.get("full_path", "")` etc.; absent keys are `none`). -/
structure GroupData where
  full_path : Option String
  path : Option String
  name : Option String
deriving DecidableEq

/-- The candidates whose `full_path` or `path` equals the reference
case-insensitively (groups.py lines 88-92). -/
def path_matches (ref : String) (candidates : List GroupData) : List GroupData :=
  candidates.filter (fun g =>
    decide (pyLower (g.full_path.getD "") = pyLower ref) ||
    decide (pyLower (g.path.getD "") = pyLower ref))

/-- The candidates whose `name` equals the reference case-insensitively
(groups.py line 98). -/
def name_matches (ref : String) (candidates : List GroupData) : List GroupData :=
  candidates.filter (fun g => decide (pyLower (g.name.getD "") = pyLower ref))

/-- The fallback search resolution of `GroupsAPI.get_group` (groups.py lines
79-104): no candidates → not found; exactly one path match → that group;
several path matches → ambiguous (None); otherwise the same
exactly-one-or-None logic on `name`. -/
def resolve_search (ref : String) (candidates : List GroupData) :
    Option GroupData :=
  if candidates.isEmpty then none
  else
    let pm := path_matches ref candidates
    if pm.length = 1 then pm.head?
    else if pm.length > 1 then none
    else
      let nm := name_matches ref candidates
      if nm.length = 1 then nm.head?
      else none

/-- `GroupsAPI.get_group` (groups.py lines 54-104).  The two direct lookups
(`_run_api_request_optional` on `groups/<id>` and on the URL-encoded path,
a method absent from the provided sources; per the spec it converts absence
into `None`) are `SingleResp` oracles — a non-dict response is modelled as
`notFound`, matching the `isinstance(group, dict)` guards.  The search
paginate result is the `candidates` oracle. -/
def get_group (by_id by_path : SingleResp GroupData)
    (candidates : List GroupData) (group_ref : String) : Option GroupData :=
  let ref := pyStrip group_ref
  if ref = "" then none
  else if pyIsDigit ref then run_api_request_optional by_id
  else
    match run_api_request_optional by_path with
    | some g => some g
    | none => resolve_search ref candidates

/-- C8: the fallback resolution returns the unique path match when exactly
one candidate matches on `full_path`/`path`, `none` when several do; with no
path match, the same logic applies to `name`; any returned group is one of
the candidates.  Concretely: two groups both named "ops" (distinct paths)
make `get_group "ops"` return `none`, while a single `full_path` match
"team/ops" is returned. -/
theorem get_group_exact_or_ambiguous :
    (∀ (ref : String) (cands : List GroupData),
      resolve_search ref cands
        = match path_matches ref cands with
          | [g] => some g
          | [] =>
            (match name_matches ref cands with
             | [g] => some g
             | _ => none)
          | _ => none) ∧
    (∀ (ref : String) (cands : List GroupData) (g : GroupData),
      resolve_search ref cands = some g → g ∈ cands) ∧
    get_group SingleResp.notFound SingleResp.notFound
      [⟨some "team-a/ops-one", some "ops-one", some "ops"⟩,
       ⟨some "team-b/ops-two", some "ops-two", some "ops"⟩] "ops" = none ∧
    get_group SingleResp.notFound SingleResp.notFound
      [⟨some "team/ops", some "ops", some "ops"⟩] "team/ops"
      = some ⟨some "team/ops", some "ops", some "ops"⟩ := by
  have hchar : ∀ (ref : String) (cands : List GroupData),
      resolve_search ref cands
        = match path_matches ref cands with
          | [g] => some g
          | [] =>
            (match name_matches ref cands with
             | [g] => some g
             | _ => none)
          | _ => none := by
    intro ref cands
    rw [resolve_search]
    by_cases hemp : cands.isEmpty
    · rw [if_pos hemp]
      have hc : cands = [] := List.isEmpty_iff.mp hemp
      subst hc
      rfl
    · rw [if_neg hemp]
      cases hpm : path_matches ref cands with
      | nil =>
        simp only [List.length_nil]
        rw [if_neg (by omega), if_neg (by omega)]
        cases hnm : name_matches ref cands with
        | nil => simp
        | cons g t =>
          cases t with
          | nil => simp
          | cons g2 t2 => simp
      | cons g t =>
        cases t with
        | nil => simp
        | cons g2 t2 =>
          simp only [List.length_cons]
          rw [if_neg (by omega), if_pos (by omega)]
  refine ⟨hchar, ?_, by decide, by decide⟩
  intro ref cands g hres
  rw [hchar ref cands] at hres
  cases hpm : path_matches ref cands with
  | nil =>
    rw [hpm] at hres
    cases hnm : name_matches ref cands with
    | nil => rw [hnm] at hres; simp at hres
    | cons g1 t =>
      cases t with
      | nil =>
        rw [hnm] at hres
        simp only [Option.some.injEq] at hres
        have hmem : g1 ∈ name_matches ref cands := by rw [hnm]; simp
        rw [← hres]
        exact List.mem_of_mem_filter hmem
      | cons g2 t2 => rw [hnm] at hres; simp at hres
  | cons g1 t =>
    cases t with
    | nil =>
      rw [hpm] at hres
      simp only [Option.some.injEq] at hres
      have hmem : g1 ∈ path_matches ref cands := by rw [hpm]; simp
      rw [← hres]
      exact List.mem_of_mem_filter hmem
    | cons g2 t2 => rw [hpm] at hres; simp at hres

theorem get_group_exact_or_ambiguous_witness :
    (⟨some "team/ops", some "ops", some "ops"⟩ : GroupData)
      ∈ [(⟨some "team/ops", some "ops", some "ops"⟩ : GroupData)] :=
  get_group_exact_or_ambiguous.2.1 "team/ops"
    [⟨some "team/ops", some "ops", some "ops"⟩]
    ⟨some "team/ops", some "ops", some "ops"⟩ (by decide)

/-- The "owner" sub-dict of a raw schedule response (REST or GraphQL). -/
structure RawOwner where
  name : Option String
  username : Option String
  id : Option Int
  state : Option String
  avatar_url : Option String
  web_url : Option String
deriving DecidableEq

/-- A raw schedule variable dict (REST `variable_type` / GraphQL
`variableType` carried in the same field). -/
structure RawVariable where
  key : Option String
  variable_type : Option String
  value : Option String
  raw : Option Bool
deriving DecidableEq

/-- The raw "last_pipeline" sub-dict of a REST schedule response. -/
structure RawLastPipeline where
  id : Option Int
  sha : Option String
  ref : Option String
  status : Option String
deriving DecidableEq

/-- A raw REST pipeline-schedule response dict, with the keys
`PipelineSchedulesAPI._parse_schedule` reads. -/
structure RawSchedule where
  id : Option Int
  description : Option String
  ref : Option String
  cron : Option String
  cron_timezone : Option String
  next_run_at : Option String
  active : Option Bool
  created_at : Option String
  updated_at : Option String
  owner : Option RawOwner
  last_pipeline : Option RawLastPipeline
  vars : List RawVariable
deriving DecidableEq

/-- A node of the GraphQL schedule's `pipelines(first: 1, sort: CREATED_DESC)`
connection. -/
structure RawGqlPipeline where
  id : Option Int
  sha : Option String
  ref : Option String
  status : Option String
  created_at : Option String
deriving DecidableEq

/-- A raw GraphQL pipeline-schedule node, with the keys
`PipelineSchedulesAPI._parse_schedule_from_graphql` reads. -/
structure RawGqlSchedule where
  id : Option Int
  description : Option String
  ref : Option String
  cron : Option String
  cronTimezone : Option String
  nextRunAt : Option String
  active : Option Bool
  createdAt : Option String
  updatedAt : Option String
  owner : Option RawOwner
  pipelines : List RawGqlPipeline
  vars : List RawVariable
deriving DecidableEq

/-- `models/pipeline_schedule.py` `PipelineScheduleOwner`, with field types
as the parsers produce them. -/
structure PipelineScheduleOwner where
  name : Option String
  username : Option String
  id : Option Int
  state : Option String
  avatar_url : Option String
  web_url : Option String
deriving DecidableEq

/-- `models/pipeline_schedule.py` `PipelineScheduleLastPipeline`. -/
structure PipelineScheduleLastPipeline where
  id : Option Int
  sha : Option String
  ref : Option String
  status : Option String
deriving DecidableEq

/-- `models/pipeline_schedule.py` `PipelineScheduleVariable`. -/
structure PipelineScheduleVariable where
  key : Option String
  variable_type : Option String
  value : Option String
  raw : Bool
deriving DecidableEq

/-- `models/pipeline_schedule.py` `PipelineSchedule`. -/
structure PipelineSchedule where
  id : Option Int
  description : Option String
  ref : Option String
  cron : Option String
  cron_timezone : Option String
  next_run_at : Option String
  active : Option Bool
  created_at : Option String
  updated_at : Option String
  owner : PipelineScheduleOwner
  last_pipeline : Option PipelineScheduleLastPipeline
  vars : List PipelineScheduleVariable
deriving DecidableEq

/-- `PipelineSchedulesAPI._parse_schedule` (pipeline_schedules.py lines
415-480): parse a REST schedule dict. -/
def parse_schedule (data : RawSchedule) : PipelineSchedule :=
  let owner_data := data.owner.getD ⟨none, none, none, none, none, none⟩
  let owner : PipelineScheduleOwner :=
    ⟨owner_data.name, owner_data.username, owner_data.id, owner_data.state,
      owner_data.avatar_url, owner_data.web_url⟩
  let last_pipeline := data.last_pipeline.map
    (fun lp => (⟨lp.id, lp.sha, lp.ref, lp.status⟩ : PipelineScheduleLastPipeline))
  let vars := data.vars.map
    (fun v => (⟨v.key, v.variable_type, v.value, v.raw.getD false⟩ :
      PipelineScheduleVariable))
  ⟨data.id, data.description, data.ref, data.cron, data.cron_timezone,
    data.next_run_at, data.active, data.created_at, data.updated_at, owner,
    last_pipeline, vars⟩

/-- `PipelineSchedulesAPI._parse_schedule_from_graphql`
(pipeline_schedules.py lines 203-272): parse a GraphQL schedule node; the
most recent pipeline is the head of the `pipelines` connection (already
sorted by CREATED_DESC); integer ids default to 0 (`int(... .get("id", 0))`). -/
def parse_schedule_from_graphql (data : RawGqlSchedule) : PipelineSchedule :=
  let owner_data := data.owner.getD ⟨none, none, none, none, none, none⟩
  let owner : PipelineScheduleOwner :=
    ⟨owner_data.name, owner_data.username, some (owner_data.id.getD 0),
      owner_data.state, owner_data.avatar_url, owner_data.web_url⟩
  let last_pipeline := data.pipelines.head?.map
    (fun p => (⟨some (p.id.getD 0), p.sha, p.ref, p.status⟩ :
      PipelineScheduleLastPipeline))
  let vars := data.vars.map
    (fun v => (⟨v.key, v.variable_type, v.value, v.raw.getD false⟩ :
      PipelineScheduleVariable))
  ⟨some (data.id.getD 0), data.description, data.ref, data.cron,
    data.cronTimezone, data.nextRunAt, data.active, data.createdAt,
    data.updatedAt, owner, last_pipeline, vars⟩

/-- `PipelineSchedulesAPI._get_schedules_with_rest_fallback`
(pipeline_schedules.py lines 150-201): parse each REST schedule, then fetch
that schedule's recent pipelines (`get_schedule_pipelines`, an oracle keyed
by the schedule id; it may raise, in which case the per-schedule `try`
swallows the error) and overwrite `last_pipeline` with the head pipeline
when one exists. -/
def get_schedules_with_rest_fallback
    (schedules_data : List RawSchedule)
    (sched_pipelines : Option Int → Except String (List Pipeline)) :
    List PipelineSchedule :=
  schedules_data.map (fun sd =>
    let schedule := parse_schedule sd
    match sched_pipelines schedule.id with
    | Except.error _ => schedule
    | Except.ok pipelines =>
      match pipelines.head? with
      | some p0 =>
        { schedule with
            last_pipeline := some ⟨some p0.id, some p0.sha, some p0.ref,
              some p0.status⟩ }
      | none => schedule)

/-- `PipelineSchedulesAPI._get_schedules_with_graphql`
(pipeline_schedules.py lines 66-148): on a successful GraphQL query, filter
the nodes by scope client-side and parse them; on any exception, fall back
to the REST strategy. -/
def get_schedules_with_graphql
    (graphql : Except String (List RawGqlSchedule))
    (schedules_data : List RawSchedule)
    (sched_pipelines : Option Int → Except String (List Pipeline))
    (scope : Option String) : List PipelineSchedule :=
  match graphql with
  | Except.error _ =>
    get_schedules_with_rest_fallback schedules_data sched_pipelines
  | Except.ok nodes =>
    let nodes2 :=
      if strTruthy scope then
        nodes.filter (fun s =>
          if scope.getD "" = "active" then s.active.getD false
          else !s.active.getD false)
      else nodes
    nodes2.map parse_schedule_from_graphql

/-- `PipelineSchedulesAPI.get_schedules` (pipeline_schedules.py lines
23-64): with `include_last_pipeline` it calls
`_get_schedules_with_rest_fallback` directly ("Use REST API with pipeline
fetching for reliable last pipeline data"); otherwise it paginates the REST
listing and parses it without enrichment. -/
def get_schedules
    (graphql : Except String (List RawGqlSchedule))
    (schedules_data : List RawSchedule)
    (sched_pipelines : Option Int → Except String (List Pipeline))
    (include_last_pipeline : Bool) : List PipelineSchedule :=
  if include_last_pipeline then
    get_schedules_with_rest_fallback schedules_data sched_pipelines
  else
    schedules_data.map parse_schedule

/-- C2 fails as stated: `get_schedules` with `include_last_pipeline` never
attempts the GraphQL query.  With a SUCCEEDING GraphQL oracle describing a
schedule "gq" and a REST oracle describing a schedule "rest",
`get_schedules` returns the REST parse while the GraphQL-first strategy
(`_get_schedules_with_graphql`, which no caller invokes) would return the
GraphQL parse. -/
theorem get_schedules_skips_graphql_counterexample :
    get_schedules
        (Except.ok [⟨some 1, some "gq", none, none, none, none, some true,
          none, none, none, [], []⟩])
        [⟨some 1, some "rest", none, none, none, none, some true, none, none,
          none, none, []⟩]
        (fun _ => Except.error "down") true
      ≠ get_schedules_with_graphql
        (Except.ok [⟨some 1, some "gq", none, none, none, none, some true,
          none, none, none, [], []⟩])
        [⟨some 1, some "rest", none, none, none, none, some true, none, none,
          none, none, []⟩]
        (fun _ => Except.error "down") none ∧
    (get_schedules
        (Except.ok [⟨some 1, some "gq", none, none, none, none, some true,
          none, none, none, [], []⟩])
        [⟨some 1, some "rest", none, none, none, none, some true, none, none,
          none, none, []⟩]
        (fun _ => Except.error "down") true).map PipelineSchedule.description
      = [some "rest"] ∧
    (get_schedules_with_graphql
        (Except.ok [⟨some 1, some "gq", none, none, none, none, some true,
          none, none, none, [], []⟩])
        [⟨some 1, some "rest", none, none, none, none, some true, none, none,
          none, none, []⟩]
        (fun _ => Except.error "down") none).map PipelineSchedule.description
      = [some "gq"] := by
  refine ⟨?_, rfl, rfl⟩
  intro h
  have hd := congrArg (fun l => l.map PipelineSchedule.description) h
  simp only at hd
  exact absurd hd (by decide)

/-- C2 (amended): `get_schedules` with `include_last_pipeline` uses the
per-schedule REST strategy directly; the GraphQL-first behaviour lives only
in the separate `_get_schedules_with_graphql` helper (which no caller
invokes), and that helper does fall back to the REST strategy on GraphQL
failure. -/
theorem get_schedules_rest_direct_graphql_fallback :
    (∀ (graphql : Except String (List RawGqlSchedule))
      (schedules_data : List RawSchedule)
      (sched_pipelines : Option Int → Except String (List Pipeline)),
      get_schedules graphql schedules_data sched_pipelines true
        = get_schedules_with_rest_fallback schedules_data sched_pipelines) ∧
    (∀ (e : String) (schedules_data : List RawSchedule)
      (sched_pipelines : Option Int → Except String (List Pipeline))
      (scope : Option String),
      get_schedules_with_graphql (Except.error e) schedules_data
          sched_pipelines scope
        = get_schedules_with_rest_fallback schedules_data sched_pipelines) :=
  ⟨fun _ _ _ => rfl, fun _ _ _ _ => rfl⟩

end GitlabToolbox
